import Mathlib

/-!
Verification of the alphabox-server core: the languages service
(dictionary store, src/services/languages.service.js) and the games
service (level registry and findWords scoring engine, src/unnamed/part_001),
shallowly embedded statement by statement.  Both services live in one
Moleculer broker, so ctx.call is a direct local invocation: values cross
the call unserialized, which is why Boolean wrapper objects survive it.
-/

namespace Alphabox

/-- JavaScript values the services manipulate per word: primitive booleans
and Boolean wrapper objects.  A wrapper built by new Boolean(x) stores
ToBoolean(x). -/
inductive JSVal where
  | prim (b : Bool)
  | boxed (b : Bool)
deriving DecidableEq, Repr

/-- JS truthiness: a primitive boolean is its own truth value; every object,
a Boolean wrapper included, is truthy. -/
def JSVal.truthy : JSVal → Bool
  | .prim b => b
  | .boxed _ => true

/-- The valueOf() content of the value: the payload of a wrapper, identity
on primitives. -/
def JSVal.valueOf : JSVal → Bool
  | .prim b => b
  | .boxed b => b

/-- ToNumber as used by the += and * operators on these values: true maps
to 1 and false to 0, a wrapper being unboxed through valueOf first. -/
def JSVal.toNum (v : JSVal) : Int := if v.valueOf then 1 else 0

/-- Whether the value is a Boolean wrapper object. -/
def JSVal.isBoxed : JSVal → Bool
  | .prim _ => false
  | .boxed _ => true

/-- JS short-circuit conjunction a && b: yields b when a is truthy,
otherwise a itself. -/
def jsAnd (a b : JSVal) : JSVal := if a.truthy then b else a

/-- String.prototype.toLowerCase over the character data (the services only
feed it ASCII letters, where JS and this map agree). -/
def jsToLower (s : String) : String := ⟨s.data.map Char.toLower⟩

/-- String.prototype.startsWith over the character data. -/
def jsStartsWith (s pre : String) : Bool := pre.data.isPrefixOf s.data

/-- String.prototype.endsWith over the character data. -/
def jsEndsWith (s pat : String) : Bool := pat.data.isSuffixOf s.data

/-- The numeric value of a string of decimal digits. -/
def charsToNat (cs : List Char) : Nat := cs.foldl (fun n c => n * 10 + (c.toNat - 48)) 0

/-- Number(s) restricted to the decimal integer strings the games routes
carry (none models NaN on anything else; the full JS Number grammar is not
observed by any claim). -/
def jsNumber (s : String) : Option Int :=
  match s.data with
  | [] => some 0
  | cs => if cs.all Char.isDigit then some (Int.ofNat (charsToNat cs)) else none

/-- A JavaScript object with string keys, as an association list in
property creation order.  The objects the services build arise only from
assignments o[k] = v, so their keys are unique. -/
abbrev JSObj (α : Type) := List (String × α)

/-- Property assignment o[k] = v: overwrite in place when the key exists,
otherwise append the new property at the end. -/
def jsSet {α : Type} : JSObj α → String → α → JSObj α
  | [], k, v => [(k, v)]
  | p :: rest, k, v => if p.1 == k then (k, v) :: rest else p :: jsSet rest k v

/-- Own-property read o[k]; none models undefined. -/
def jsGet {α : Type} (o : JSObj α) (k : String) : Option α :=
  (o.find? (fun p => p.1 == k)).map Prod.snd

/-- o.hasOwnProperty(k). -/
def jsHas {α : Type} (o : JSObj α) (k : String) : Bool :=
  o.any (fun p => p.1 == k)

/-- The keys in property creation order, before the integer-index
reordering that own-property enumeration applies. -/
def jsRawKeys {α : Type} (o : JSObj α) : List String := o.map Prod.fst

/-- A canonical array-index string in the ECMAScript sense: the canonical
decimal representation (digits only, no leading zero except 0 itself) of an
integer below 2 ^ 32 - 1.  Own properties with such keys are enumerated
before all the others, in ascending numeric order. -/
def isArrayIndex (s : String) : Bool :=
  match s.data with
  | [] => false
  | c :: cs =>
    (c :: cs).all Char.isDigit && (cs.isEmpty || c != '0') &&
      decide (charsToNat (c :: cs) < 4294967295)

/-- Insertion into a list of array-index keys, keeping ascending numeric
order. -/
def insertIdx (k : String) : List String → List String
  | [] => [k]
  | x :: xs =>
    if charsToNat k.data ≤ charsToNat x.data then k :: x :: xs else x :: insertIdx k xs

/-- Ascending numeric sort of the array-index keys. -/
def sortIdx (ks : List String) : List String := ks.foldr insertIdx []

/-- Object.keys(o): array-index keys first in ascending numeric order, then
the remaining string keys in property creation order. -/
def jsKeys {α : Type} (o : JSObj α) : List String :=
  sortIdx ((jsRawKeys o).filter isArrayIndex)
    ++ (jsRawKeys o).filter (fun k => !isArrayIndex k)

/-- MoleculerClientError(message, code, type, data), with the single
field/message datum every throw site in the services attaches. -/
structure MolError where
  message : String
  code : Int
  errType : String
  dataField : String
  dataMessage : String
deriving DecidableEq, Repr

/-- The error thrown when a language code is missing from
metadata.dictionaries. -/
def languageNotSupportedError (lang : String) : MolError :=
  { message := s!"Language {lang} is not supported", code := 404, errType := "",
    dataField := "lang", dataMessage := "is not supported" }

/-- The error thrown when a level is missing for a language; the games
service also reuses this exact value when the level exists but has no
findWords step. -/
def levelNotFoundError (level lang : String) : MolError :=
  { message := s!"Level {level} does not exist for language {lang}", code := 404,
    errType := "", dataField := "level", dataMessage := "does not exist" }

/-- A raised exception: a typed Moleculer client error, or an engine
TypeError from a property access on undefined. -/
inductive JSError where
  | mol (e : MolError)
  | typeError (msg : String)
deriving DecidableEq, Repr

/-- One parsed dictionary file of a language: each stored word keyed to the
truthiness of its JSON value, which is the only aspect the service ever
observes of it (through new Boolean(dictionaries[language][word])). -/
abbrev Dictionary := JSObj Bool

/-- metadata.dictionaries of the languages service: language code keyed to
its parsed dictionary. -/
abbrev Dictionaries := JSObj Dictionary

/-- languages.checkLanguage: metadata.dictionaries.hasOwnProperty(lang). -/
def checkLanguage (dicts : Dictionaries) (lang : String) : Bool := jsHas dicts lang

/-- The value checkWord returns: an object with a single result field. -/
structure CheckResult where
  result : JSVal
deriving DecidableEq, Repr

/-- checkWord: result = new Boolean(dictionaries[language][word]).  The
lookup is by the exact spelling of word, with no lowercasing, and the
membership truthiness is wrapped in a Boolean object. -/
def checkWord (d : Dictionary) (word : String) : CheckResult :=
  ⟨.boxed ((jsGet d word).getD false)⟩

/-- The languages.check action: the hasOwnProperty language guard (absence
of the key and an undefined lookup coincide on these objects), then
checkWord. -/
def checkAction (dicts : Dictionaries) (lang word : String) :
    Except MolError CheckResult :=
  match jsGet dicts lang with
  | none => .error (languageNotSupportedError lang)
  | some d => .ok (checkWord d word)

/-- The languages.checkMultiple action: the same language guard, then
response[word] = checkWord(lang, word).result over the batch, in order. -/
def checkMultiple (dicts : Dictionaries) (lang : String) (words : List String) :
    Except MolError (JSObj JSVal) :=
  match jsGet dicts lang with
  | none => .error (languageNotSupportedError lang)
  | some d => .ok (words.foldl (fun r word => jsSet r word (checkWord d word).result) [])

/-- One step of a level: its type tag and the two numeric fields the
findWords scoring reads.  Steps of other kinds carry the same shape; their
numeric fields are never read by the embedded code. -/
structure Step where
  type : String
  rewardPerWord : Int
  required : Int
deriving DecidableEq, Repr

/-- One level of the games data: its required letter and step sequence. -/
structure LevelSettings where
  letter : String
  steps : List Step
deriving DecidableEq, Repr

/-- metadata.games of the games service: language code keyed to an object
from level number strings to settings. -/
abbrev Games := JSObj (JSObj LevelSettings)

/-- getSettings of the games service: the language guard via
languages.checkLanguage, then the unguarded
this.metadata.games[lang].hasOwnProperty(level) — a TypeError when no level
collection was loaded for the language — then the level lookup. -/
def getSettings (dicts : Dictionaries) (games : Games) (lang level : String) :
    Except JSError LevelSettings :=
  if !checkLanguage dicts lang then
    .error (.mol (languageNotSupportedError lang))
  else
    match jsGet games lang with
    | none => .error (.typeError "Cannot read properties of undefined")
    | some levels =>
      match jsGet levels level with
      | none => .error (.mol (levelNotFoundError level lang))
      | some s => .ok s

/-- Modelled from the spec: the languages.someWords action invoked by
findWordsResults is not among the source files, only its call site is.
Per sections 4.1, 4.4 and 8 of the spec it returns up to count distinct
words of the language word set that start with the given prefix
(case-insensitively) and are not among the excluded words (case-insensitive
exclusion), in the deterministic store order.  The word set of a language
is the set of truthy-valued keys of its dictionary, matching the membership
semantics of checkWord. -/
def someWords (dicts : Dictionaries) (lang pfx : String) (except : List String)
    (count : Nat) : List String :=
  match jsGet dicts lang with
  | none => []
  | some d =>
    (((d.filter (fun p => p.2)).map Prod.fst).filter (fun w =>
        jsStartsWith (jsToLower w) (jsToLower pfx) &&
        !(except.any (fun e => jsToLower e == jsToLower w)))).take count

/-- Stage one of findWordsResults: results[word] =
word.toLowerCase().startsWith(levelSettings.letter.toLowerCase()) over the
submitted words, in order, into a fresh object. -/
def prefixResults (letter : String) (words : List String) : JSObj JSVal :=
  words.foldl
    (fun r word => jsSet r word (.prim (jsStartsWith (jsToLower word) (jsToLower letter)))) []

/-- Stage two, the batch filter: Object.keys(results).filter(key =>
results[key]) — the words still candidates to success. -/
def candidatesOf (r : JSObj JSVal) : List String :=
  (jsKeys r).filter (fun key => ((jsGet r key).getD (.prim false)).truthy)

/-- Stage three, the merge: Object.keys(checkInDictionary).forEach(word =>
results[word] = checkInDictionary[word] && results[word]).  A missing key
reads as undefined, which is falsy; such reads do not occur on the actual
call path since the checked keys come from results itself. -/
def mergeChecks (r c : JSObj JSVal) : JSObj JSVal :=
  (jsKeys c).foldl
    (fun r word => jsSet r word
      (jsAnd ((jsGet c word).getD (.prim false))
             ((jsGet r word).getD (.prim false)))) r

/-- Stage four, the accumulation loop: score += results[word] *
step.rewardPerWord and total_found += results[word] over
Object.keys(results), returning (score, total_found). -/
def scoreTotals (r : JSObj JSVal) (reward : Int) : Int × Int :=
  (jsKeys r).foldl
    (fun p word =>
      (p.1 + ((jsGet r word).getD (.prim false)).toNum * reward,
       p.2 + ((jsGet r word).getD (.prim false)).toNum)) (0, 0)

/-- The response object of games.findWordsResults.  The level field holds
Number(level); none models NaN on a non-numeric level string. -/
structure ScoreResponse where
  level : Option Int
  success : Bool
  required : Int
  results : JSObj JSVal
  someWords : List String
  score : Int
  total_found : Int
  type : String
deriving DecidableEq, Repr

/-- games.findWordsResults, translated statement by statement from the
source: getSettings, the prefix pass, languages.checkMultiple on the
candidates, the merge, the first findWords step (throwing the reused
level-not-found error when absent), the score accumulation, the
languages.someWords call with count 5 and the original submission as the
exclusion list, then the response record. -/
def findWordsResults (dicts : Dictionaries) (games : Games) (lang level : String)
    (words : List String) : Except JSError ScoreResponse :=
  match getSettings dicts games lang level with
  | .error e => .error e
  | .ok levelSettings =>
    let results0 := prefixResults levelSettings.letter words
    match checkMultiple dicts lang (candidatesOf results0) with
    | .error e => .error (.mol e)
    | .ok checkInDictionary =>
      let results := mergeChecks results0 checkInDictionary
      match levelSettings.steps.find? (fun step => step.type == "findWords") with
      | none => .error (.mol (levelNotFoundError level lang))
      | some step =>
        let totals := scoreTotals results step.rewardPerWord
        .ok {
          level := jsNumber level
          success := decide (totals.2 ≥ step.required)
          required := step.required
          results := results
          someWords := someWords dicts lang levelSettings.letter words 5
          score := totals.1
          total_found := totals.2
          type := step.type }

/-- A directory entry as created() sees it: its name, whether it is a file,
and the JSON.parse outcome on its contents; none means the parse throws. -/
structure DirEntry (α : Type) where
  name : String
  isFile : Bool
  parsed : Option α
deriving Repr

/-- Removal of the first occurrence of a pattern from a character list. -/
def removeFirstList (pat : List Char) : List Char → List Char
  | [] => []
  | c :: cs =>
    if pat.isPrefixOf (c :: cs) then (c :: cs).drop pat.length
    else c :: removeFirstList pat cs

/-- name.replace(pat, empty string) as JS evaluates it on a string pattern:
only the first occurrence is removed. -/
def removeFirst (s pat : String) : String := ⟨removeFirstList pat.data s.data⟩

/-- created() of the languages service (the games service loads the same
way): iterate the directory entries in order and, for each .json file,
parse it and assign the result under the file name without its extension.
A JSON.parse failure throws out of the loop: the boolean flags the abort
and the accumulated store keeps exactly the languages processed before the
malformed entry. -/
def createdLoad {α : Type} : List (DirEntry α) → JSObj α → JSObj α × Bool
  | [], acc => (acc, false)
  | e :: rest, acc =>
    if e.isFile && jsEndsWith e.name ".json" then
      match e.parsed with
      | none => (acc, true)
      | some v => createdLoad rest (jsSet acc (removeFirst e.name ".json") v)
    else createdLoad rest acc

/-- The submitted spellings with later duplicates dropped: the key list a
sequence of property assignments creates, in first-assignment order. -/
def dedupFirst (ws : List String) : List String :=
  ws.foldl (fun ks w => if w ∈ ks then ks else ks ++ [w]) []

/-- A small concrete store shared by the witnesses: the English dictionary
of the example in section 8 of the spec. -/
def sampleDict : Dictionary := [("apple", true), ("ant", true), ("banana", true)]

/-- The dictionary store holding only the sample English dictionary. -/
def sampleDicts : Dictionaries := [("en", sampleDict)]

/-- The findWords step of the sample level. -/
def sampleStep : Step := { type := "findWords", rewardPerWord := 10, required := 2 }

/-- The sample level: letter a, one findWords step. -/
def sampleLevel : LevelSettings := { letter := "a", steps := [sampleStep] }

/-- The games store holding the sample level as level 1 of English. -/
def sampleGames : Games := [("en", [("1", sampleLevel)])]

/-- A games store whose only level carries no findWords step. -/
def stepLessGames : Games :=
  [("en", [("1", { letter := "a",
                   steps := [{ type := "shuffle", rewardPerWord := 1, required := 1 }] })])]

/-- A games store with a loaded but empty level collection for English. -/
def emptyLevelsGames : Games := [("en", [])]

/-- The response the engine computes for the submission [ax] on the sample
store: the word is not in the dictionary, yet it is scored valid. -/
def sampleResp : ScoreResponse :=
  { level := some 1, success := false, required := 2,
    results := [("ax", .prim true)], someWords := ["apple", "ant"],
    score := 10, total_found := 1, type := "findWords" }

/-- The response object checkMultiple builds for the batch [ax, apple] on
the sample store: every value a Boolean wrapper. -/
def c8SampleResponse : JSObj JSVal := [("ax", .boxed false), ("apple", .boxed true)]

/-- A directory entry whose contents JSON.parse rejects. -/
def malformedEntry : DirEntry Dictionary :=
  { name := "fr.json", isFile := true, parsed := none }

/-- A directory entry that parses to the sample dictionary. -/
def wellFormedEntry : DirEntry Dictionary :=
  { name := "en.json", isFile := true, parsed := some sampleDict }

section ObjLemmas

variable {α : Type}

theorem jsGet_nil (k : String) : jsGet ([] : JSObj α) k = none := rfl

theorem jsGet_cons (p : String × α) (rest : JSObj α) (k : String) :
    jsGet (p :: rest) k = if p.1 = k then some p.2 else jsGet rest k := by
  by_cases hp : p.1 = k
  · simp [jsGet, List.find?_cons_of_pos, hp]
  · simp [jsGet, List.find?_cons_of_neg, hp]

theorem jsSet_cons (p : String × α) (rest : JSObj α) (k : String) (v : α) :
    jsSet (p :: rest) k v = if p.1 = k then (k, v) :: rest else p :: jsSet rest k v := by
  simp [jsSet]

theorem jsGet_set_self (o : JSObj α) (k : String) (v : α) :
    jsGet (jsSet o k v) k = some v := by
  induction o with
  | nil => simp [jsSet, jsGet_cons]
  | cons p rest ih =>
    rw [jsSet_cons]
    by_cases hp : p.1 = k
    · simp [jsGet_cons, hp]
    · simpa [jsGet_cons, hp] using ih

theorem jsGet_set_ne (o : JSObj α) (k k2 : String) (v : α) (h : k2 ≠ k) :
    jsGet (jsSet o k v) k2 = jsGet o k2 := by
  induction o with
  | nil => simp [jsSet, jsGet_cons, jsGet_nil, Ne.symm h]
  | cons p rest ih =>
    rw [jsSet_cons]
    by_cases hp : p.1 = k
    · simp [jsGet_cons, hp, Ne.symm h]
    · simp [jsGet_cons, hp, ih]

theorem jsRawKeys_set (o : JSObj α) (k : String) (v : α) :
    jsRawKeys (jsSet o k v) =
      if k ∈ jsRawKeys o then jsRawKeys o else jsRawKeys o ++ [k] := by
  induction o with
  | nil => simp [jsSet, jsRawKeys]
  | cons p rest ih =>
    rw [jsSet_cons]
    by_cases hp : p.1 = k
    · simp [jsRawKeys, hp]
    · simp only [jsRawKeys, List.map_cons] at ih ⊢
      by_cases hm : k ∈ List.map Prod.fst rest
      · simp [hp, hm, ih, Ne.symm hp]
      · simp [hp, hm, ih, Ne.symm hp]

theorem nodup_jsRawKeys_set (o : JSObj α) (k : String) (v : α)
    (h : (jsRawKeys o).Nodup) : (jsRawKeys (jsSet o k v)).Nodup := by
  rw [jsRawKeys_set]
  by_cases hm : k ∈ jsRawKeys o
  · simpa [hm] using h
  · rw [if_neg hm, List.nodup_append]
    refine ⟨h, List.nodup_singleton _, ?_⟩
    intro x hx hx2
    rw [List.mem_singleton] at hx2
    exact hm (hx2 ▸ hx)

theorem jsGet_eq_none_iff (o : JSObj α) (k : String) :
    jsGet o k = none ↔ k ∉ jsRawKeys o := by
  induction o with
  | nil => simp [jsGet_nil, jsRawKeys]
  | cons p rest ih =>
    rw [jsGet_cons]
    by_cases hp : p.1 = k
    · simp [jsRawKeys, hp]
    · simpa [jsRawKeys, hp, Ne.symm hp] using ih

theorem jsGet_is_some_of_mem (o : JSObj α) (k : String) (h : k ∈ jsRawKeys o) :
    ∃ v, jsGet o k = some v := by
  cases hv : jsGet o k with
  | none => exact absurd ((jsGet_eq_none_iff o k).mp hv) (not_not_intro h)
  | some v => exact ⟨v, rfl⟩

theorem jsHas_iff (o : JSObj α) (k : String) :
    jsHas o k = true ↔ k ∈ jsRawKeys o := by
  rw [jsHas, List.any_eq_true]
  simp only [jsRawKeys, List.mem_map, beq_iff_eq]

theorem jsSet_get_self (o : JSObj α) (k : String) (v : α)
    (h : jsGet o k = some v) : jsSet o k v = o := by
  induction o with
  | nil => simp [jsGet_nil] at h
  | cons p rest ih =>
    rw [jsGet_cons] at h
    rw [jsSet_cons]
    by_cases hp : p.1 = k
    · simp only [hp, if_true] at h ⊢
      have hv : p.2 = v := by simpa using h
      subst hv
      rw [← hp]
    · simp only [hp, if_false] at h ⊢
      rw [ih h]

end ObjLemmas

section BuildLemmas

variable {α : Type}

theorem jsGet_build (f : String → α) (words : List String) (acc : JSObj α)
    (k : String) :
    jsGet (words.foldl (fun r w => jsSet r w (f w)) acc) k =
      if k ∈ words then some (f k) else jsGet acc k := by
  induction words generalizing acc with
  | nil => simp
  | cons w rest ih =>
    simp only [List.foldl_cons, ih]
    by_cases hr : k ∈ rest
    · simp [hr]
    · by_cases hw : k = w
      · simp [hr, hw, jsGet_set_self]
      · simp [hr, hw, jsGet_set_ne _ _ _ _ hw]

theorem jsRawKeys_build (f : String → α) (words : List String) (acc : JSObj α) :
    jsRawKeys (words.foldl (fun r w => jsSet r w (f w)) acc) =
      words.foldl (fun ks w => if w ∈ ks then ks else ks ++ [w]) (jsRawKeys acc) := by
  induction words generalizing acc with
  | nil => simp
  | cons w rest ih => simp only [List.foldl_cons, ih, jsRawKeys_set]

theorem mem_keyFold (words ks0 : List String) (k : String) :
    k ∈ words.foldl (fun ks w => if w ∈ ks then ks else ks ++ [w]) ks0 ↔
      k ∈ ks0 ∨ k ∈ words := by
  induction words generalizing ks0 with
  | nil => simp
  | cons w rest ih =>
    simp only [List.foldl_cons, ih]
    by_cases hw : w ∈ ks0
    · simp only [hw, if_true, List.mem_cons]
      constructor
      · rintro (h | h)
        · exact .inl h
        · exact .inr (.inr h)
      · rintro (h | rfl | h)
        · exact .inl h
        · exact .inl hw
        · exact .inr h
    · simp only [hw, if_false, List.mem_append, List.mem_singleton, List.mem_cons]
      tauto

theorem nodup_keyFold (words ks0 : List String) (h : ks0.Nodup) :
    (words.foldl (fun ks w => if w ∈ ks then ks else ks ++ [w]) ks0).Nodup := by
  induction words generalizing ks0 with
  | nil => simpa
  | cons w rest ih =>
    simp only [List.foldl_cons]
    by_cases hw : w ∈ ks0
    · simpa [hw] using ih ks0 h
    · exact ih _ (by simp [List.nodup_append, h, hw])

theorem mem_dedupFirst (words : List String) (k : String) :
    k ∈ dedupFirst words ↔ k ∈ words := by
  simpa [dedupFirst] using mem_keyFold words [] k

theorem nodup_dedupFirst (words : List String) : (dedupFirst words).Nodup :=
  nodup_keyFold words [] List.nodup_nil

end BuildLemmas

section KeysLemmas

theorem mem_insertIdx (k x : String) (l : List String) :
    x ∈ insertIdx k l ↔ x = k ∨ x ∈ l := by
  induction l with
  | nil => simp [insertIdx]
  | cons y ys ih =>
    rw [insertIdx]
    by_cases hc : charsToNat k.data ≤ charsToNat y.data
    · simp only [hc, if_true, List.mem_cons]
    · simp only [hc, if_false, List.mem_cons, ih]
      tauto

theorem mem_sortIdx (ks : List String) (x : String) :
    x ∈ sortIdx ks ↔ x ∈ ks := by
  induction ks with
  | nil => simp [sortIdx]
  | cons k ks ih =>
    rw [sortIdx, List.foldr_cons, mem_insertIdx,
      show ks.foldr insertIdx [] = sortIdx ks from rfl, ih, List.mem_cons]

theorem mem_jsKeys {α : Type} (o : JSObj α) (k : String) :
    k ∈ jsKeys o ↔ k ∈ jsRawKeys o := by
  rw [jsKeys, List.mem_append, mem_sortIdx]
  constructor
  · rintro (h | h) <;> exact (List.mem_filter.mp h).1
  · intro h
    by_cases hi : isArrayIndex k = true
    · exact .inl (List.mem_filter.mpr ⟨h, hi⟩)
    · exact .inr (List.mem_filter.mpr ⟨h, by simpa using hi⟩)

theorem jsKeys_eq_raw {α : Type} (o : JSObj α)
    (h : ∀ k ∈ jsRawKeys o, isArrayIndex k = false) : jsKeys o = jsRawKeys o := by
  rw [jsKeys]
  have h1 : (jsRawKeys o).filter isArrayIndex = [] :=
    List.filter_eq_nil_iff.mpr (fun k hk => by simp [h k hk])
  have h2 : (jsRawKeys o).filter (fun k => !isArrayIndex k) = jsRawKeys o :=
    List.filter_eq_self.mpr (fun k hk => by simp [h k hk])
  rw [h1, h2]
  simp [sortIdx]

end KeysLemmas

section PathLemmas

theorem merge_fold_no_op (c r : JSObj JSVal) (ms : List String)
    (hc : ∀ k ∈ ms, ∃ b, jsGet c k = some (.boxed b))
    (hr : ∀ k ∈ ms, ∃ v, jsGet r k = some v) :
    ms.foldl (fun r word => jsSet r word
      (jsAnd ((jsGet c word).getD (.prim false))
             ((jsGet r word).getD (.prim false)))) r = r := by
  induction ms with
  | nil => rfl
  | cons k ms ih =>
    rw [List.foldl_cons]
    obtain ⟨b, hb⟩ := hc k (.head _)
    obtain ⟨v, hv⟩ := hr k (.head _)
    have hstep : jsSet r k
        (jsAnd ((jsGet c k).getD (.prim false)) ((jsGet r k).getD (.prim false))) = r := by
      rw [hb, hv]
      simp only [Option.getD_some]
      rw [show jsAnd (.boxed b) v = v from by simp [jsAnd, JSVal.truthy]]
      exact jsSet_get_self r k v hv
    rw [hstep]
    exact ih (fun x hx => hc x (.tail _ hx)) (fun x hx => hr x (.tail _ hx))

theorem getSettings_ok_inv (dicts : Dictionaries) (games : Games)
    (lang level : String) (ls : LevelSettings)
    (h : getSettings dicts games lang level = .ok ls) :
    ∃ d levels, jsGet dicts lang = some d ∧ jsGet games lang = some levels ∧
      jsGet levels level = some ls := by
  rw [getSettings] at h
  split at h
  · exact absurd h (by simp)
  next hpos =>
    have hc : checkLanguage dicts lang = true := by simpa using hpos
    obtain ⟨d, hd⟩ := jsGet_is_some_of_mem dicts lang ((jsHas_iff _ _).mp hc)
    split at h
    · exact absurd h (by simp)
    next levels hg =>
      split at h
      · exact absurd h (by simp)
      next s hl =>
        cases h
        exact ⟨d, levels, hd, hg, hl⟩

theorem checkMultiple_ok (dicts : Dictionaries) (lang : String)
    (words : List String) (d : Dictionary) (hd : jsGet dicts lang = some d) :
    checkMultiple dicts lang words =
      .ok (words.foldl (fun r w => jsSet r w (.boxed ((jsGet d w).getD false))) []) := by
  rw [checkMultiple, hd]
  rfl

theorem jsGet_prefixResults (letter : String) (words : List String) (k : String) :
    jsGet (prefixResults letter words) k =
      if k ∈ words then some (.prim (jsStartsWith (jsToLower k) (jsToLower letter))) else none := by
  have := jsGet_build (fun w => JSVal.prim (jsStartsWith (jsToLower w) (jsToLower letter))) words [] k
  simpa [prefixResults, jsGet_nil] using this

theorem jsRawKeys_prefixResults (letter : String) (words : List String) :
    jsRawKeys (prefixResults letter words) = dedupFirst words := by
  have := jsRawKeys_build (fun w => JSVal.prim (jsStartsWith (jsToLower w) (jsToLower letter))) words []
  simpa [prefixResults, dedupFirst, jsRawKeys] using this

theorem mergeChecks_candidates (letter : String) (words : List String) (d : Dictionary) :
    mergeChecks (prefixResults letter words)
      ((candidatesOf (prefixResults letter words)).foldl
        (fun r w => jsSet r w (JSVal.boxed ((jsGet d w).getD false))) []) =
      prefixResults letter words := by
  have hmemc : ∀ k,
      k ∈ jsRawKeys ((candidatesOf (prefixResults letter words)).foldl
        (fun r w => jsSet r w (JSVal.boxed ((jsGet d w).getD false))) []) →
      k ∈ candidatesOf (prefixResults letter words) := by
    intro k hk
    rw [jsRawKeys_build (fun w => JSVal.boxed ((jsGet d w).getD false))
      (candidatesOf (prefixResults letter words)) []] at hk
    simpa [jsRawKeys] using (mem_keyFold (candidatesOf (prefixResults letter words)) _ k).mp hk
  rw [mergeChecks]
  apply merge_fold_no_op
  · intro k hk
    have hkc := hmemc k ((mem_jsKeys _ k).mp hk)
    refine ⟨(jsGet d k).getD false, ?_⟩
    rw [jsGet_build (fun w => JSVal.boxed ((jsGet d w).getD false))
      (candidatesOf (prefixResults letter words)) [] k]
    simp [hkc]
  · intro k hk
    have hkc := hmemc k ((mem_jsKeys _ k).mp hk)
    rw [candidatesOf] at hkc
    have hk0 : k ∈ jsKeys (prefixResults letter words) := (List.mem_filter.mp hkc).1
    exact jsGet_is_some_of_mem _ k ((mem_jsKeys _ k).mp hk0)

theorem findWordsResults_ok_char (dicts : Dictionaries) (games : Games)
    (lang level : String) (words : List String) (d : Dictionary)
    (ls : LevelSettings) (step : Step)
    (hd : jsGet dicts lang = some d)
    (hls : getSettings dicts games lang level = .ok ls)
    (hstep : ls.steps.find? (fun s => s.type == "findWords") = some step) :
    findWordsResults dicts games lang level words =
      .ok { level := jsNumber level
            success := decide
              ((scoreTotals (prefixResults ls.letter words) step.rewardPerWord).2 ≥ step.required)
            required := step.required
            results := prefixResults ls.letter words
            someWords := someWords dicts lang ls.letter words 5
            score := (scoreTotals (prefixResults ls.letter words) step.rewardPerWord).1
            total_found := (scoreTotals (prefixResults ls.letter words) step.rewardPerWord).2
            type := step.type } := by
  simp only [findWordsResults, hls, checkMultiple_ok dicts lang _ d hd, hstep,
    mergeChecks_candidates ls.letter words d]

theorem foldl_pair_mul (ks : List String) (g : String → Int) (reward a b : Int)
    (h : a = b * reward) :
    (ks.foldl (fun p w => (p.1 + g w * reward, p.2 + g w)) (a, b)).1 =
      (ks.foldl (fun p w => (p.1 + g w * reward, p.2 + g w)) (a, b)).2 * reward := by
  induction ks generalizing a b with
  | nil => simpa using h
  | cons k ks ih =>
    rw [List.foldl_cons]
    exact ih _ _ (by rw [h, add_mul])

theorem scoreTotals_mul (r : JSObj JSVal) (reward : Int) :
    (scoreTotals r reward).1 = (scoreTotals r reward).2 * reward := by
  have := foldl_pair_mul (jsKeys r)
    (fun w => ((jsGet r w).getD (.prim false)).toNum) reward 0 0 (by ring)
  simpa [scoreTotals] using this

theorem findWordsResults_ok_inv (dicts : Dictionaries) (games : Games)
    (lang level : String) (words : List String) (r : ScoreResponse)
    (h : findWordsResults dicts games lang level words = .ok r) :
    ∃ d ls step, jsGet dicts lang = some d ∧
      getSettings dicts games lang level = .ok ls ∧
      ls.steps.find? (fun s => s.type == "findWords") = some step ∧
      r = { level := jsNumber level
            success := decide
              ((scoreTotals (prefixResults ls.letter words) step.rewardPerWord).2 ≥ step.required)
            required := step.required
            results := prefixResults ls.letter words
            someWords := someWords dicts lang ls.letter words 5
            score := (scoreTotals (prefixResults ls.letter words) step.rewardPerWord).1
            total_found := (scoreTotals (prefixResults ls.letter words) step.rewardPerWord).2
            type := step.type } := by
  rw [findWordsResults] at h
  split at h
  · exact absurd h (by simp)
  next ls hls =>
    obtain ⟨d, levels, hd, hg, hl⟩ := getSettings_ok_inv _ _ _ _ _ hls
    simp only [checkMultiple_ok dicts lang _ d hd] at h
    split at h
    · exact absurd h (by simp)
    next step hstep =>
      injection h with h
      subst h
      refine ⟨d, ls, step, hd, hls, hstep, ?_⟩
      rw [mergeChecks_candidates ls.letter words d]

end PathLemmas

section SuggestionLemmas

theorem someWords_length_le (dicts : Dictionaries) (lang pfx : String)
    (except : List String) (count : Nat) :
    (someWords dicts lang pfx except count).length ≤ count := by
  rw [someWords]
  cases jsGet dicts lang with
  | none => simp
  | some d =>
    rw [List.length_take]
    exact min_le_left _ _

theorem someWords_mem_props (dicts : Dictionaries) (lang pfx : String)
    (except : List String) (count : Nat) (w : String)
    (hw : w ∈ someWords dicts lang pfx except count) :
    jsStartsWith (jsToLower w) (jsToLower pfx) = true ∧
      ∀ s ∈ except, (jsToLower s == jsToLower w) = false := by
  rw [someWords] at hw
  cases hg : jsGet dicts lang with
  | none =>
    rw [hg] at hw
    exact absurd hw (by simp)
  | some d =>
    rw [hg] at hw
    have hw2 : w ∈ ((d.filter (fun p => p.2)).map Prod.fst).filter (fun w =>
        jsStartsWith (jsToLower w) (jsToLower pfx) &&
        !(except.any (fun e => jsToLower e == jsToLower w))) :=
      List.take_subset _ _ hw
    obtain ⟨-, hcond⟩ := List.mem_filter.mp hw2
    rw [Bool.and_eq_true] at hcond
    obtain ⟨h1, h2⟩ := hcond
    refine ⟨h1, ?_⟩
    intro s hs
    rw [Bool.not_eq_true'] at h2
    simpa using (List.any_eq_false.mp h2) s hs

theorem jsSet_all {α : Type} (o : JSObj α) (k : String) (v : α)
    (Q : String × α → Bool)
    (ho : o.all Q = true) (hv : Q (k, v) = true) : (jsSet o k v).all Q = true := by
  induction o with
  | nil => simp [jsSet, hv]
  | cons p rest ih =>
    rw [jsSet_cons]
    rw [List.all_cons, Bool.and_eq_true] at ho
    by_cases hp : p.1 = k
    · simp only [hp, if_true, List.all_cons, Bool.and_eq_true]
      exact ⟨hv, ho.2⟩
    · simp only [hp, if_false, List.all_cons, Bool.and_eq_true]
      exact ⟨ho.1, ih ho.2⟩

theorem all_values_build (f : String → JSVal) (ws : List String)
    (acc : JSObj JSVal) (Q : String × JSVal → Bool)
    (hacc : acc.all Q = true) (hf : ∀ w, Q (w, f w) = true) :
    ((ws.foldl (fun r w => jsSet r w (f w)) acc).all Q) = true := by
  induction ws generalizing acc with
  | nil => simpa using hacc
  | cons w rest ih =>
    rw [List.foldl_cons]
    exact ih _ (jsSet_all acc w (f w) Q hacc (hf w))

end SuggestionLemmas

/-- Claim C1 (code bug): the claim states a submitted word is valid iff it
passes the prefix test and is a member of the dictionary, words failing the
prefix test being recorded invalid without a dictionary check.  The code
violates the membership half: checkWord wraps membership in a Boolean
object, which is always truthy, so the merge checkInDictionary[word] &&
results[word] always evaluates to the prefix-test value.  At this input the
word ax is absent from the dictionary yet is returned valid with score 10
and total_found 1. -/
theorem c1_boolean_wrapper_defeats_dictionary_check :
    jsGet sampleDict "ax" = none ∧
    findWordsResults sampleDicts sampleGames "en" "1" ["ax"] = .ok sampleResp :=
  ⟨rfl, rfl⟩

/-- Claim C2 counterexample: the lowercase form of Apple is in the word set,
yet the membership check looks the exact spelling up without lowercasing and
yields a wrapper of false — so contains is not the claimed case-insensitive
test. -/
theorem c2_counterexample_membership_not_case_insensitive :
    jsToLower "Apple" = "apple" ∧
    jsGet sampleDict "apple" = some true ∧
    checkAction sampleDicts "en" "Apple" = .ok ⟨.boxed false⟩ :=
  ⟨rfl, rfl, rfl⟩

/-- Claim C2 (amended): membership is case-sensitive — the underlying
boolean of checkWord is true exactly when the word itself, with its exact
spelling and no lowercasing at load or lookup, is a truthy-valued key of
the loaded dictionary. -/
theorem c2_amended_membership_case_sensitive (d : Dictionary) (w : String)
    (hnd : (jsRawKeys d).Nodup) :
    ((checkWord d w).result).valueOf = true ↔
      w ∈ (d.filter (fun p => p.2)).map Prod.fst := by
  induction d with
  | nil => simp [checkWord, JSVal.valueOf, jsGet_nil]
  | cons p rest ih =>
    simp only [jsRawKeys, List.map_cons, List.nodup_cons] at hnd
    obtain ⟨hp1, hp2⟩ := hnd
    simp only [checkWord, JSVal.valueOf] at ih ⊢
    rw [jsGet_cons]
    by_cases hp : p.1 = w
    · subst hp
      cases hpv : p.2 with
      | true => simp [List.filter_cons, hpv]
      | false =>
        simp only [if_true, Option.getD_some, List.filter_cons, hpv]
        have : p.1 ∉ (rest.filter (fun p => p.2)).map Prod.fst := by
          intro hmem
          exact hp1 (List.mem_map.mpr
            (by
              obtain ⟨q, hq, hqe⟩ := List.mem_map.mp hmem
              exact ⟨q, List.mem_of_mem_filter hq, hqe⟩))
        simp [hpv, this]
    · rw [if_neg hp]
      rw [ih hp2]
      rw [List.filter_cons]
      cases hpv : p.2 with
      | true => simp [Ne.symm hp]
      | false => simp

/-- Witness for the amended C2 theorem at the sample dictionary. -/
theorem c2_amended_witness :
    (((checkWord sampleDict "apple").result).valueOf = true ↔
      "apple" ∈ (sampleDict.filter (fun p => p.2)).map Prod.fst) :=
  c2_amended_membership_case_sensitive sampleDict "apple" (by decide)

/-- Claim C3 (spec-modelled suggestion action): a successful scoring response
carries at most 5 suggestions, each starting with the level letter
case-insensitively, and none equal — up to case — to any originally
submitted word. -/
theorem c3_someWords_bounded_excluding_prefixed
    (dicts : Dictionaries) (games : Games) (lang level : String)
    (words : List String) (r : ScoreResponse) (ls : LevelSettings)
    (hls : getSettings dicts games lang level = .ok ls)
    (h : findWordsResults dicts games lang level words = .ok r) :
    r.someWords.length ≤ 5 ∧
    (r.someWords.all (fun w => jsStartsWith (jsToLower w) (jsToLower ls.letter))) = true ∧
    (r.someWords.all (fun w => words.all (fun s => !(jsToLower s == jsToLower w)))) = true := by
  obtain ⟨d, ls2, step, hd, hls2, hstep, rfl⟩ := findWordsResults_ok_inv _ _ _ _ _ _ h
  rw [hls] at hls2
  injection hls2 with e
  subst e
  refine ⟨someWords_length_le dicts lang ls.letter words 5, ?_, ?_⟩
  · rw [List.all_eq_true]
    intro w hw
    exact (someWords_mem_props dicts lang ls.letter words 5 w hw).1
  · rw [List.all_eq_true]
    intro w hw
    rw [List.all_eq_true]
    intro s hs
    have hex := (someWords_mem_props dicts lang ls.letter words 5 w hw).2 s hs
    simp [hex]

/-- Witness for C3 at the sample store and the submission [ax]. -/
theorem c3_witness :
    sampleResp.someWords.length ≤ 5 ∧
    (sampleResp.someWords.all (fun w =>
      jsStartsWith (jsToLower w) (jsToLower sampleLevel.letter))) = true ∧
    (sampleResp.someWords.all (fun w =>
      (["ax"].all (fun s => !(jsToLower s == jsToLower w))))) = true :=
  c3_someWords_bounded_excluding_prefixed sampleDicts sampleGames "en" "1" ["ax"]
    sampleResp sampleLevel rfl rfl

/-- Claim C4 counterexample: a level without a findWords step makes
findWordsResults throw exactly the level-not-found error value — the same
message, code and datum an absent level yields — so the condition promised
by the claim is not separately identifiable. -/
theorem c4_counterexample_step_error_equals_level_error :
    findWordsResults sampleDicts stepLessGames "en" "1" ["ant"] =
      .error (.mol (levelNotFoundError "1" "en")) ∧
    getSettings sampleDicts emptyLevelsGames "en" "1" =
      .error (.mol (levelNotFoundError "1" "en")) :=
  ⟨rfl, rfl⟩

/-- Claim C4 (amended): when the level exists but carries no findWords step
the operation does fail, but with exactly the levelNotFoundError value
(message "Level ... does not exist for language ...", code 404, field
level), reusing the LevelNotFound wording instead of a distinct
StepNotApplicable condition. -/
theorem c4_amended_missing_step_raises_level_not_found_error
    (dicts : Dictionaries) (games : Games) (lang level : String)
    (words : List String) (ls : LevelSettings)
    (hls : getSettings dicts games lang level = .ok ls)
    (hstep : ls.steps.find? (fun s => s.type == "findWords") = none) :
    findWordsResults dicts games lang level words =
      .error (.mol (levelNotFoundError level lang)) := by
  obtain ⟨d, levels, hd, -, -⟩ := getSettings_ok_inv _ _ _ _ _ hls
  simp only [findWordsResults, hls, checkMultiple_ok dicts lang _ d hd, hstep]

/-- Witness for the amended C4 theorem. -/
theorem c4_amended_witness :
    findWordsResults sampleDicts stepLessGames "en" "1" ["ax"] =
      .error (.mol (levelNotFoundError "1" "en")) :=
  c4_amended_missing_step_raises_level_not_found_error sampleDicts stepLessGames
    "en" "1" ["ax"]
    { letter := "a", steps := [{ type := "shuffle", rewardPerWord := 1, required := 1 }] }
    rfl rfl

/-- Claim C5 counterexample: with a malformed fr.json listed before a
well-formed en.json, created() throws at the first entry: the store ends
empty and English, though well-formed, is never loaded — a malformed single
language does prevent another language from loading. -/
theorem c5_counterexample_malformed_blocks_later_language :
    createdLoad [malformedEntry, wellFormedEntry] ([] : Dictionaries) = ([], true) ∧
    jsGet (createdLoad [malformedEntry, wellFormedEntry] ([] : Dictionaries)).1 "en" = none :=
  ⟨rfl, rfl⟩

/-- Claim C5 (amended): a malformed .json entry makes created() throw at
that entry: the languages read before it stay loaded, while it and every
later entry are skipped — loading does not continue past the failure. -/
theorem c5_amended_created_aborts_at_malformed {α : Type}
    (pre post : List (DirEntry α)) (bad : DirEntry α) (acc : JSObj α)
    (hpre : (createdLoad pre acc).2 = false)
    (hfile : bad.isFile = true) (hjson : jsEndsWith bad.name ".json" = true)
    (hbad : bad.parsed = none) :
    createdLoad (pre ++ bad :: post) acc = ((createdLoad pre acc).1, true) := by
  induction pre generalizing acc with
  | nil =>
    simp only [List.nil_append, createdLoad, hfile, hjson, hbad]
    simp
  | cons e rest ih =>
    rw [List.cons_append]
    simp only [createdLoad] at hpre ⊢
    by_cases hef : (e.isFile && jsEndsWith e.name ".json") = true
    · simp only [if_pos hef] at hpre ⊢
      cases hep : e.parsed with
      | none => simp [hep] at hpre
      | some v =>
        simp only [hep] at hpre ⊢
        exact ih _ hpre
    · simp only [if_neg hef] at hpre ⊢
      exact ih _ hpre

/-- Witness for the amended C5 theorem. -/
theorem c5_amended_witness :
    createdLoad ([wellFormedEntry] ++ malformedEntry :: ([] : List (DirEntry Dictionary)))
        ([] : Dictionaries) =
      ((createdLoad [wellFormedEntry] ([] : Dictionaries)).1, true) :=
  c5_amended_created_aborts_at_malformed [wellFormedEntry] [] malformedEntry []
    rfl rfl rfl rfl

/-- Claim C6 counterexample: English is supported by the dictionary store
but no level collection was loaded for it; the claim promises LevelNotFound
for the missing level, yet the operation raises a TypeError instead. -/
theorem c6_counterexample_missing_collection_type_error :
    getSettings sampleDicts ([] : Games) "en" "1" =
      .error (.typeError "Cannot read properties of undefined") ∧
    JSError.typeError "Cannot read properties of undefined" ≠
      .mol (levelNotFoundError "1" "en") :=
  ⟨rfl, by decide⟩

/-- Claim C6 (amended): an unsupported language yields the
LanguageNotSupported error; a supported language whose loaded level
collection lacks the level number yields the LevelNotFound error; the two
error values are always distinct.  A supported language with no level
collection at all instead raises a TypeError (claim C10). -/
theorem c6_amended_language_level_errors_distinct
    (dicts : Dictionaries) (games : Games) (lang level : String) :
    (jsHas dicts lang = false →
      getSettings dicts games lang level =
        .error (.mol (languageNotSupportedError lang))) ∧
    (∀ levels, jsGet games lang = some levels → jsGet levels level = none →
      jsHas dicts lang = true →
      getSettings dicts games lang level =
        .error (.mol (levelNotFoundError level lang))) ∧
    languageNotSupportedError lang ≠ levelNotFoundError level lang := by
  refine ⟨?_, ?_, ?_⟩
  · intro h
    simp [getSettings, checkLanguage, h]
  · intro levels hg hl hhas
    simp [getSettings, checkLanguage, hhas, hg, hl]
  · intro hcontra
    have hfield := congrArg MolError.dataField hcontra
    simp [languageNotSupportedError, levelNotFoundError] at hfield

/-- Witness for the amended C6 theorem: both failure shapes at concrete
stores, plus the distinctness of the two error values. -/
theorem c6_amended_witness :
    getSettings ([] : Dictionaries) sampleGames "en" "1" =
      .error (.mol (languageNotSupportedError "en")) ∧
    getSettings sampleDicts emptyLevelsGames "en" "1" =
      .error (.mol (levelNotFoundError "1" "en")) ∧
    languageNotSupportedError "en" ≠ levelNotFoundError "1" "en" :=
  ⟨(c6_amended_language_level_errors_distinct [] sampleGames "en" "1").1 rfl,
   (c6_amended_language_level_errors_distinct sampleDicts emptyLevelsGames "en" "1").2.1
     [] rfl rfl rfl,
   (c6_amended_language_level_errors_distinct sampleDicts emptyLevelsGames "en" "1").2.2⟩

/-- Claim C7 counterexample: the submission [apple, 10] produces a results
object whose own-property enumeration — integer-like keys first — is
[10, apple], not the submission order. -/
theorem c7_counterexample_numeric_key_order :
    (findWordsResults sampleDicts sampleGames "en" "1" ["apple", "10"]).map
      (fun r => jsKeys r.results) = .ok ["10", "apple"] ∧
    ["10", "apple"] ≠ ["apple", "10"] :=
  ⟨rfl, by decide⟩

/-- Claim C7 (amended): the results mapping holds exactly one entry per
distinct submitted spelling, whose value is a function of that spelling (so
resubmitting a spelling keeps a single key, last write winning vacuously);
enumeration equals the submission order with later duplicates dropped
whenever no submitted spelling is an integer-like (array index) string —
such spellings are enumerated first, in ascending numeric order. -/
theorem c7_amended_results_mapping_shape
    (dicts : Dictionaries) (games : Games) (lang level : String)
    (words : List String) (r : ScoreResponse) (ls : LevelSettings)
    (hls : getSettings dicts games lang level = .ok ls)
    (h : findWordsResults dicts games lang level words = .ok r) :
    (jsRawKeys r.results).Nodup ∧
    (∀ w, w ∈ jsRawKeys r.results ↔ w ∈ words) ∧
    (∀ w ∈ words, jsGet r.results w =
      some (.prim (jsStartsWith (jsToLower w) (jsToLower ls.letter)))) ∧
    ((∀ w ∈ words, isArrayIndex w = false) → jsKeys r.results = dedupFirst words) := by
  obtain ⟨d, ls2, step, hd, hls2, hstep, rfl⟩ := findWordsResults_ok_inv _ _ _ _ _ _ h
  rw [hls] at hls2
  injection hls2 with e
  subst e
  refine ⟨?_, ?_, ?_, ?_⟩
  · show (jsRawKeys (prefixResults ls.letter words)).Nodup
    rw [jsRawKeys_prefixResults]
    exact nodup_dedupFirst words
  · intro w
    show w ∈ jsRawKeys (prefixResults ls.letter words) ↔ w ∈ words
    rw [jsRawKeys_prefixResults]
    exact mem_dedupFirst words w
  · intro w hw
    show jsGet (prefixResults ls.letter words) w = _
    rw [jsGet_prefixResults]
    simp [hw]
  · intro hidx
    show jsKeys (prefixResults ls.letter words) = dedupFirst words
    have hidx2 : ∀ k ∈ jsRawKeys (prefixResults ls.letter words),
        isArrayIndex k = false := by
      intro k hk
      rw [jsRawKeys_prefixResults] at hk
      exact hidx k ((mem_dedupFirst words k).mp hk)
    rw [jsKeys_eq_raw _ hidx2, jsRawKeys_prefixResults]

/-- Witness for the amended C7 theorem, instantiated at the sample store. -/
theorem c7_amended_witness :
    (jsRawKeys sampleResp.results).Nodup ∧
    ("ax" ∈ jsRawKeys sampleResp.results ↔ "ax" ∈ ["ax"]) ∧
    jsGet sampleResp.results "ax" =
      some (.prim (jsStartsWith (jsToLower "ax") (jsToLower sampleLevel.letter))) ∧
    jsKeys sampleResp.results = dedupFirst ["ax"] := by
  have h := c7_amended_results_mapping_shape sampleDicts sampleGames "en" "1" ["ax"]
    sampleResp sampleLevel rfl rfl
  exact ⟨h.1, h.2.1 "ax", h.2.2.1 "ax" (by decide), h.2.2.2 (by decide)⟩

/-- Claim C8: every per-word value in a successful checkMultiple response is
a Boolean wrapper object, hence truthy — never the primitive false, even for
words absent from the dictionary. -/
theorem c8_checkMultiple_values_always_truthy
    (dicts : Dictionaries) (lang : String) (words : List String) (c : JSObj JSVal)
    (h : checkMultiple dicts lang words = .ok c) :
    (c.all (fun p => p.2.isBoxed && p.2.truthy)) = true := by
  rw [checkMultiple] at h
  split at h
  · exact absurd h (by simp)
  next d hg =>
    injection h with h
    subst h
    exact all_values_build (fun w => (checkWord d w).result) words [] _ rfl
      (fun w => by simp [checkWord, JSVal.isBoxed, JSVal.truthy])

/-- Witness for C8 at the sample store and the batch [ax, apple]. -/
theorem c8_witness :
    (c8SampleResponse.all (fun p => p.2.isBoxed && p.2.truthy)) = true :=
  c8_checkMultiple_values_always_truthy sampleDicts "en" ["ax", "apple"]
    c8SampleResponse rfl

/-- Claim C9: the score equals total_found times the findWords step reward:
both accumulators run over the same per-word validity values, one scaled by
rewardPerWord. -/
theorem c9_score_eq_total_found_mul_reward
    (dicts : Dictionaries) (games : Games) (lang level : String)
    (words : List String) (r : ScoreResponse) (ls : LevelSettings) (step : Step)
    (hls : getSettings dicts games lang level = .ok ls)
    (hstep : ls.steps.find? (fun s => s.type == "findWords") = some step)
    (h : findWordsResults dicts games lang level words = .ok r) :
    r.score = r.total_found * step.rewardPerWord := by
  obtain ⟨d, ls2, step2, hd, hls2, hstep2, rfl⟩ := findWordsResults_ok_inv _ _ _ _ _ _ h
  rw [hls] at hls2
  injection hls2 with e
  subst e
  rw [hstep] at hstep2
  injection hstep2 with e2
  subst e2
  exact scoreTotals_mul (prefixResults ls.letter words) step.rewardPerWord

/-- Witness for C9 at the sample store. -/
theorem c9_witness :
    sampleResp.score = sampleResp.total_found * sampleStep.rewardPerWord :=
  c9_score_eq_total_found_mul_reward sampleDicts sampleGames "en" "1" ["ax"]
    sampleResp sampleLevel sampleStep rfl rfl rfl

/-- Claim C10: a language supported by the dictionary store but lacking any
loaded level collection makes both getSettings and findWordsResults raise a
TypeError — the unguarded hasOwnProperty call on the undefined games[lang]
— instead of the typed LevelNotFound failure. -/
theorem c10_missing_level_collection_raises_type_error
    (dicts : Dictionaries) (games : Games) (lang level : String)
    (words : List String)
    (hlang : jsHas dicts lang = true) (hg : jsGet games lang = none) :
    getSettings dicts games lang level =
      .error (.typeError "Cannot read properties of undefined") ∧
    findWordsResults dicts games lang level words =
      .error (.typeError "Cannot read properties of undefined") := by
  have h1 : getSettings dicts games lang level =
      .error (.typeError "Cannot read properties of undefined") := by
    rw [getSettings]
    rw [if_neg (by simp [checkLanguage, hlang])]
    simp only [hg]
  refine ⟨h1, ?_⟩
  rw [findWordsResults]
  simp only [h1]

/-- Witness for C10 at the sample dictionary store with no games data. -/
theorem c10_witness :
    getSettings sampleDicts ([] : Games) "en" "7" =
      .error (.typeError "Cannot read properties of undefined") ∧
    findWordsResults sampleDicts ([] : Games) "en" "7" ["ant"] =
      .error (.typeError "Cannot read properties of undefined") :=
  c10_missing_level_collection_raises_type_error sampleDicts [] "en" "7" ["ant"]
    rfl rfl

end Alphabox

